import Mathlib

/-!
Shallow embedding of the core of the GermanVerbTrainer repository:
the in-memory verb catalog (`core/services/supabase.service.ts`,
`CacheService`), the question generator and scoring engine
(`features/quiz/services/quiz.service.ts`, `features/quiz/services/verb.service.ts`),
the local attempt ledger (`core/services/storage.service.ts`) and the sync
reconciler (`core/services/sync.service.ts`).

Modelling conventions:
* JS objects keyed by strings become association lists (`List (String × _)`);
  a missing key is `none` under `List.lookup`, mirroring `undefined`.
* JS falsy checks on conjugation strings (`if (!conjugatedForm)`) treat the
  empty string like `undefined`; the embedding checks `s ≠ ""` explicitly.
* `Math.random`-driven choices are a parameter `rand : Nat → Nat`; the index
  drawn for loop counter `i` is `rand i % (i + 1)`, exactly the range
  `Math.floor(Math.random() * (i + 1))` produces.
* `uuidv4()` is a parameter `uuid : Nat → String` indexed by generation order.
* JS numbers used as integers become `Nat`/`Int`; the percentage arithmetic
  of `scoreQuiz` is modelled in `ℚ` with `Math.round` as `jsRound`
  (floor of `q + 1/2`, which is exactly JS rounding for these values).
* ISO date strings compared through `new Date(_).getTime()` are modelled by
  their numeric timestamp (`Int`).
* Wall-clock reads (`new Date()`) become explicit `now` parameters.
-/

namespace GVT

/-- `Verb` from `core/models/verb.model.ts`.  `conjugations` is the sparse
two-level table keyed by tense then person; `verb_type` is one of the strings
weak/strong/irregular/modal (kept as `String`, as `TestConfig.verbTypes` is
`string[]` in the source).  `created_at` is an inert timestamp string. -/
structure Verb where
  id : String
  infinitive : String
  english_translation : String
  verb_type : String
  stem : String
  conjugations : List (String × List (String × String))
  difficulty_level : Int
  created_at : String
deriving DecidableEq, Repr

/-- `VerbFilters` from `core/models/verb.model.ts`: all three criteria are
optional. -/
structure VerbFilters where
  verbTypes : Option (List String)
  difficultyLevels : Option (List Int)
  infinitives : Option (List String)
deriving DecidableEq, Repr

/-- `TestConfig` from `core/models/test-config.model.ts`. -/
structure TestConfig where
  tenses : List String
  verbTypes : List String
  persons : List String
  questionCount : Nat
  difficultyLevels : Option (List Int)
  specificVerbs : Option (List String)
deriving DecidableEq, Repr

/-- `Question` from `features/quiz/models` (quiz.model.ts). -/
structure Question where
  id : String
  verb : Verb
  tense : String
  person : String
  correctAnswer : String
  userAnswer : Option String
  isCorrect : Option Bool
  questionText : String
deriving DecidableEq, Repr

/-- `QuizResult` from `features/quiz/models`; the wall-clock `timestamp`
field is omitted (pure `Date` read). -/
structure QuizResult where
  questions : List Question
  score : Nat
  totalQuestions : Nat
  percentage : ℚ
  duration : Option Int
deriving DecidableEq, Repr

/-- In-memory state of `CacheService`: the `Map` keyed by infinitive
(modelled as an insertion-ordered association list, `Map.set` semantics),
the flat array, and the initialization flag. -/
structure CacheState where
  verbsMap : List (String × Verb)
  verbsArray : List Verb
  isInitialized : Bool
deriving DecidableEq, Repr

/-- `CacheService.getAllVerbs`: empty before initialization, otherwise a copy
of the backing array. -/
def getAllVerbs (st : CacheState) : List Verb :=
  if !st.isInitialized then [] else st.verbsArray

/-- One `if (criteria.xs && criteria.xs.length > 0) filtered = filtered.filter(...)`
step of `CacheService.filterVerbs`: a missing or empty criterion imposes no
constraint. -/
def filterStage {β : Type} (l : List Verb) (crit : Option (List β))
    (accepts : List β → Verb → Bool) : List Verb :=
  match crit with
  | some cs => if cs.length > 0 then l.filter (accepts cs) else l
  | none => l

/-- `CacheService.filterVerbs`: the three criteria are applied in sequence. -/
def filterVerbs (st : CacheState) (criteria : VerbFilters) : List Verb :=
  if !st.isInitialized then []
  else
    filterStage
      (filterStage
        (filterStage st.verbsArray criteria.verbTypes (fun ts v => ts.contains v.verb_type))
        criteria.difficultyLevels (fun ds v => ds.contains v.difficulty_level))
      criteria.infinitives (fun infs v => infs.contains v.infinitive)

/-- `VerbService.getVerbs`: no filter object means all verbs. -/
def getVerbs (st : CacheState) (filters : Option VerbFilters) : List Verb :=
  match filters with
  | none => getAllVerbs st
  | some criteria => filterVerbs st criteria

/-- `VerbService.getConjugation`: two-level lookup; a missing tense, a
missing person, or an empty string (falsy in JS) yields `none`. -/
def getConjugation (verb : Verb) (tense person : String) : Option String :=
  match verb.conjugations.lookup tense with
  | none => none
  | some tenseConjugations =>
    match tenseConjugations.lookup person with
    | none => none
    | some conjugatedForm => if conjugatedForm = "" then none else some conjugatedForm

/-- `VerbService.hasRequiredConjugations`: every requested tense must define
every requested person (non-empty, mirroring the JS falsy check). -/
def hasRequiredConjugations (verb : Verb) (tenses persons : List String) : Bool :=
  tenses.all fun tense =>
    match verb.conjugations.lookup tense with
    | none => false
    | some tenseConjugations =>
      persons.all fun person =>
        match tenseConjugations.lookup person with
        | none => false
        | some s => s != ""

/-- `VerbService.getVerbsWithConjugations`. -/
def getVerbsWithConjugations (tenses persons : List String) (filters : Option VerbFilters)
    (st : CacheState) : List Verb :=
  (getVerbs st filters).filter (fun verb => hasRequiredConjugations verb tenses persons)

/-- The filter object `QuizService` builds from a `TestConfig` for both
`generateQuestions` and `validateConfiguration`. -/
def configFilters (config : TestConfig) : VerbFilters :=
  { verbTypes := some config.verbTypes
    difficultyLevels := config.difficultyLevels
    infinitives := config.specificVerbs }

/-- The candidate verb pool both `generateQuestions` and
`validateConfiguration` compute. -/
def candidateVerbs (config : TestConfig) (st : CacheState) : List Verb :=
  getVerbsWithConjugations config.tenses config.persons (some (configFilters config)) st

/-- One in-place swap of a JS array (`[a[i], a[j]] = [a[j], a[i]]`); indices
in range by construction in the Fisher–Yates loop, identity otherwise. -/
def swapIdx {α : Type} (l : List α) (i j : Nat) : List α :=
  if h : i < l.length ∧ j < l.length then
    (l.set i (l.get ⟨j, h.2⟩)).set j (l.get ⟨i, h.1⟩)
  else l

/-- The Fisher–Yates loop of `generateQuestions` (and `shuffleArray`):
`for (let i = n - 1; i > 0; i--) swap(i, Math.floor(Math.random()*(i+1)))`.
The counter argument is the current loop index `i`; the loop body runs for
`i = n-1, …, 1`. -/
def fisherYatesAux {α : Type} (rand : Nat → Nat) : Nat → List α → List α
  | 0, l => l
  | i + 1, l => fisherYatesAux rand i (swapIdx l (i + 1) (rand (i + 1) % (i + 2)))

/-- Fisher–Yates shuffle over a copy of the list. -/
def fisherYates {α : Type} (rand : Nat → Nat) (l : List α) : List α :=
  fisherYatesAux rand (l.length - 1) l

/-- The combination loop of `QuizService.generateQuestions`: for each
candidate verb, requested tense and requested person, keep the triple only
when `getConjugation` yields a (truthy) value. -/
def allCombinations (tenses persons : List String) (verbs : List Verb) :
    List (Verb × String × String) :=
  verbs.flatMap fun verb =>
    tenses.flatMap fun tense =>
      persons.filterMap fun person =>
        match getConjugation verb tense person with
        | some _ => some (verb, tense, person)
        | none => none

/-- `QuizService.generateQuestionText` tense label table. -/
def tenseLabel (tense : String) : String :=
  ([("präsens", "Present"), ("präteritum", "Simple Past"), ("perfekt", "Present Perfect"),
    ("plusquamperfekt", "Past Perfect"), ("futur", "Future")].lookup tense).getD tense

/-- `QuizService.generateQuestionText` person label table. -/
def personLabel (person : String) : String :=
  ([("ich", "I"), ("du", "you (informal)"), ("er", "he/she/it"), ("wir", "we"),
    ("ihr", "you (plural)"), ("sie", "they/you (formal)")].lookup person).getD person

/-- `QuizService.generateQuestionText`. -/
def generateQuestionText (verb : Verb) (tense person : String) : String :=
  "Conjugate \"" ++ verb.infinitive ++ "\" (" ++ verb.english_translation ++ ") in "
    ++ tenseLabel tense ++ " for \"" ++ personLabel person ++ "\" (" ++ person ++ ")"

/-- Building one `Question` from a selected combination; `correctAnswer` is
`getConjugation(...)!` (the non-null assertion is modelled by `getD ""`,
never hit because kept combinations have a conjugation). -/
def mkQuestion (newId : String) (combo : Verb × String × String) : Question :=
  { id := newId
    verb := combo.1
    tense := combo.2.1
    person := combo.2.2
    correctAnswer := (getConjugation combo.1 combo.2.1 combo.2.2).getD ""
    userAnswer := none
    isCorrect := none
    questionText := generateQuestionText combo.1 combo.2.1 combo.2.2 }

/-- The final `.map` of `generateQuestions`, with `uuidv4()` drawing fresh
ids from the `uuid` stream in order. -/
def buildQuestions (uuid : Nat → String) : Nat → List (Verb × String × String) → List Question
  | _, [] => []
  | i, combo :: rest => mkQuestion (uuid i) combo :: buildQuestions uuid (i + 1) rest

/-- `QuizService.generateQuestions`.  The initial `hasEnoughVerbs` call only
logs a warning and does not change control flow, so it is not modelled. -/
def generateQuestions (rand : Nat → Nat) (uuid : Nat → String) (config : TestConfig)
    (st : CacheState) : List Question :=
  let availableVerbs := candidateVerbs config st
  if availableVerbs.length = 0 then []
  else
    let combos := allCombinations config.tenses config.persons availableVerbs
    let shuffled := fisherYates rand combos
    let actualQuestionCount := min config.questionCount combos.length
    buildQuestions uuid 0 (shuffled.take actualQuestionCount)

/-- The JS `\s` whitespace class restricted to its ASCII members (space, tab,
newline, carriage return, vertical tab, form feed), used by both `trim()`
and the `/\s+/g` collapse so the two stay consistent. -/
def isJsSpace (c : Char) : Bool :=
  c == ' ' || c == '\t' || c == '\n' || c == '\r' || c.toNat == 11 || c.toNat == 12

/-- `String.prototype.trim()` on the character list. -/
def jsTrim (l : List Char) : List Char :=
  ((l.dropWhile isJsSpace).reverse.dropWhile isJsSpace).reverse

/-- Worker for `.replace(/\s+/g, ' ')`: the flag records whether the previous
character was part of a whitespace run already emitted as `' '`. -/
def collapseWsAux : Bool → List Char → List Char
  | _, [] => []
  | prevWs, c :: cs =>
    if isJsSpace c then
      if prevWs then collapseWsAux true cs else ' ' :: collapseWsAux true cs
    else c :: collapseWsAux false cs

/-- `.replace(/\s+/g, ' ')`: each maximal whitespace run becomes one space. -/
def collapseWs (l : List Char) : List Char := collapseWsAux false l

/-- The punctuation class `[.,!?;:]` removed by `normalizeAnswer`. -/
def isStrippedPunct (c : Char) : Bool :=
  c == '.' || c == ',' || c == '!' || c == '?' || c == ';' || c == ':'

/-- `.replace(/[.,!?;:]/g, '')`. -/
def stripPunct (l : List Char) : List Char := l.filter (fun c => !isStrippedPunct c)

/-- `QuizService.normalizeAnswer` on the character list: lowercase, trim,
collapse whitespace runs, strip punctuation — in exactly that order.
`Char.toLower` is precisely the ASCII lowering `toLowerCase` performs on the
characters this app handles. -/
def normalizeChars (l : List Char) : List Char :=
  stripPunct (collapseWs (jsTrim (l.map Char.toLower)))

/-- `QuizService.normalizeAnswer`. -/
def normalizeAnswer (answer : String) : String :=
  String.mk (normalizeChars answer.data)

/-- `QuizService.validateAnswer`. -/
def validateAnswer (question : Question) (userAnswer : String) : Bool :=
  normalizeAnswer userAnswer == normalizeAnswer question.correctAnswer

/-- `QuizService.isPartiallyCorrect`: note the source checks only the
*user's* normalized length against 2, not the canonical answer's. -/
def isPartiallyCorrect (question : Question) (userAnswer : String) : Bool :=
  let normalized := (normalizeAnswer userAnswer).data
  let correctNormalized := (normalizeAnswer question.correctAnswer).data
  if normalized.length < 2 then false
  else correctNormalized.isPrefixOf normalized || normalized.isPrefixOf correctNormalized

/-- JS `Math.round`: half-up rounding, `⌊q + 1/2⌋`. -/
def jsRound (q : ℚ) : ℤ := Rat.floor (q + 1 / 2)

/-- `QuizService.scoreQuiz`.  The `userAnswers` map is an association list
(`Map.get` is `lookup`, a missing entry scores as `''`); `now`/`startTime`
are epoch-millisecond stand-ins for the `Date` reads; the wall-clock
`timestamp` field of `QuizResult` is not modelled. -/
def scoreQuiz (now : Int) (questions : List Question)
    (userAnswers : List (String × String)) (startTime : Option Int) : QuizResult :=
  let scoredQuestions := questions.map fun question =>
    let userAnswer := (userAnswers.lookup question.id).getD ""
    { question with userAnswer := some userAnswer
                    isCorrect := some (validateAnswer question userAnswer) }
  let correctCount :=
    questions.countP fun question => validateAnswer question ((userAnswers.lookup question.id).getD "")
  let totalQuestions := questions.length
  let percentage : ℚ :=
    if totalQuestions > 0 then ((correctCount : ℚ) / (totalQuestions : ℚ)) * 100 else 0
  { questions := scoredQuestions
    score := correctCount
    totalQuestions := totalQuestions
    percentage := (jsRound (percentage * 100) : ℚ) / 100
    duration := startTime.map fun s0 => (now - s0) / 1000 }

/-- Result of `QuizService.validateConfiguration`. -/
structure ConfigValidation where
  valid : Bool
  errors : List String
deriving DecidableEq, Repr

/-- `QuizService.validateConfiguration`: the sequence of `errors.push`
calls is written as a concatenation of per-check blocks, in source order. -/
def validateConfiguration (config : TestConfig) (st : CacheState) : ConfigValidation :=
  let availableVerbs := candidateVerbs config st
  let errors :=
    (if config.tenses.length = 0 then ["At least one tense must be selected"] else [])
    ++ (if config.verbTypes.length = 0 then ["At least one verb type must be selected"] else [])
    ++ (if config.persons.length = 0 then ["At least one person must be selected"] else [])
    ++ (if config.questionCount < 1 then ["Question count must be at least 1"] else [])
    ++ (if config.questionCount > 100 then ["Question count cannot exceed 100"] else [])
    ++ (if availableVerbs.length = 0 then ["No verbs available matching the selected criteria"]
        else if availableVerbs.length < config.questionCount then
          ["Only " ++ Nat.repr availableVerbs.length ++ " verbs available, but "
            ++ Nat.repr config.questionCount ++ " questions requested"]
        else [])
  { valid := errors.length = 0, errors := errors }

/-- `TestResult` from `core/models` (the attempt record).  `test_date` is the
epoch value `new Date(test_date).getTime()` of the ISO string; the
`test_configuration` and `answers` payloads are opaque to every operation
modelled here and are carried as a single inert `detail` string. -/
structure TestResult where
  id : String
  user_id : Option String
  test_date : Int
  test_type : String
  score : Nat
  total_questions : Nat
  percentage : ℚ
  detail : String
  duration_seconds : Option Int
  synced : Bool
  synced_at : Option String
  client_generated_id : String
deriving DecidableEq, Repr

/-- The localStorage contents `StorageService` manages: the stored result
array under `TEST_RESULTS_KEY` and the `LAST_SYNC_KEY` timestamp. -/
structure Store where
  results : List TestResult
  lastSync : Option String
deriving DecidableEq, Repr

/-- The `results.sort((a, b) => dateB - dateA)` in
`StorageService.getTestResults`: stable descending sort by `test_date`
(JS `Array.prototype.sort` is stable). -/
def sortByDateDesc (l : List TestResult) : List TestResult :=
  List.insertionSort (fun a b => a.test_date > b.test_date) l

/-- `StorageService.getTestResults`: parse and sort newest-first. -/
def getTestResults (st : Store) : List TestResult :=
  sortByDateDesc st.results

/-- `StorageService.saveTestResult`: read (sorted), push, write back. -/
def saveTestResult (st : Store) (result : TestResult) : Store :=
  { st with results := getTestResults st ++ [result] }

/-- The `Partial<TestResult>` patch used by the sync flow: only the
sync-state fields. -/
structure ResultPatch where
  synced : Option Bool
  synced_at : Option (Option String)
deriving DecidableEq, Repr

/-- Object spread `{ ...results[index], ...updates }`. -/
def applyPatch (r : TestResult) (p : ResultPatch) : TestResult :=
  { r with synced := p.synced.getD r.synced
           synced_at := p.synced_at.getD r.synced_at }

/-- `StorageService.updateTestResult`: locate by id in the sorted view,
patch in place, write back; a missing id is a logged no-op. -/
def updateTestResult (st : Store) (id : String) (p : ResultPatch) : Store :=
  let results := getTestResults st
  match results.findIdx? (fun r => r.id == id) with
  | none => st
  | some index =>
    match results[index]? with
    | none => st
    | some r => { st with results := results.set index (applyPatch r p) }

/-- `SyncService.getUnsyncedResults`. -/
def getUnsyncedResults (st : Store) : List TestResult :=
  (getTestResults st).filter (fun result => !result.synced)

/-- `SyncResult` from `core/models/sync.model.ts`. -/
structure SyncResult where
  success : Bool
  message : String
  syncedCount : Option Nat
  failedCount : Option Nat
  timestamp : String
deriving DecidableEq, Repr

/-- `SyncService.uploadHistory`.  The remote `uploadResults` round-trip is
abstracted by `remoteOk`; when it fails, `SupabaseService.uploadResults`
rethrows `{ message: 'Failed to upload results to server' }`, which is the
message the `catchError` branch reports.  Marking happens only inside the
`tap` of the success path, so a failed upload touches neither the results
nor `LAST_SYNC_KEY`. -/
def uploadHistory (now : String) (remoteOk : Bool) (st : Store) : SyncResult × Store :=
  let unsyncedResults := getUnsyncedResults st
  if unsyncedResults.length = 0 then
    ({ success := true, message := "No unsynced results to upload",
       syncedCount := some 0, failedCount := some 0, timestamp := now }, st)
  else if remoteOk then
    let st1 := unsyncedResults.foldl
      (fun s result => updateTestResult s result.id
        { synced := some true, synced_at := some (some now) }) st
    ({ success := true,
       message := "Successfully uploaded " ++ Nat.repr unsyncedResults.length ++ " result(s)",
       syncedCount := some unsyncedResults.length, failedCount := some 0, timestamp := now },
     { st1 with lastSync := some now })
  else
    ({ success := false, message := "Failed to upload results to server",
       syncedCount := some 0, failedCount := some unsyncedResults.length, timestamp := now }, st)

/-- `{ ...serverResult, synced: true }` in `downloadHistory`. -/
def markSyncedFromServer (r : TestResult) : TestResult :=
  { r with synced := true }

/-- `SyncService.downloadHistory`.  `remote = none` is the `catchError`
path (the remote fetch failed): local results are returned and the store is
untouched.  On success the local key map is built *once*, then each server
result whose `client_generated_id` is not in it is appended marked synced;
the merged list is returned and `LAST_SYNC_KEY` updated. -/
def downloadHistory (remote : Option (List TestResult)) (now : String) (st : Store) :
    List TestResult × Store :=
  match remote with
  | none => (getTestResults st, st)
  | some serverResults =>
    let localResults := getTestResults st
    let localKeys := localResults.map (fun r => r.client_generated_id)
    let st1 := serverResults.foldl
      (fun s serverResult =>
        if localKeys.contains serverResult.client_generated_id then s
        else saveTestResult s (markSyncedFromServer serverResult)) st
    (getTestResults st1, { st1 with lastSync := some now })

/-- `Map.set` semantics of a JS `Map` keyed by strings: overwrite in place
if the key exists, otherwise append. -/
def mapSet (m : List (String × Verb)) (k : String) (v : Verb) : List (String × Verb) :=
  if m.any (fun p => p.1 == k) then m.map (fun p => if p.1 == k then (k, v) else p)
  else m ++ [(k, v)]

/-- The `verbs.forEach((verb) => this.verbsMap.set(verb.infinitive, verb))`
loop of `CacheService.initializeCache`. -/
def buildVerbsMap (verbs : List Verb) : List (String × Verb) :=
  verbs.foldl (fun m verb => mapSet m verb.infinitive verb) []

/-- `CacheService.initializeCache`, given the verb list the Supabase fetch
produced: a no-op when already initialized, an error for an empty list
(`throw new Error('No verbs loaded from Supabase')`, which the catch block
turns into the fallback attempt — not modelled further), and otherwise the
wholesale replacement of array and map.  No duplicate-infinitive check of
any kind is performed. -/
def initializeCache (verbs : List Verb) (st : CacheState) : Except String CacheState :=
  if st.isInitialized then Except.ok st
  else if verbs.length = 0 then Except.error "No verbs loaded from Supabase"
  else Except.ok { verbsMap := buildVerbsMap verbs, verbsArray := verbs, isInitialized := true }

/-- The identity of a combination as the spec's (verb, tense, person)
triple, with the verb named by its unique infinitive. -/
def comboTriple (combo : Verb × String × String) : String × String × String :=
  (combo.1.infinitive, combo.2.1, combo.2.2)

/-- The (verb, tense, person) triple of a generated `Question`. -/
def questionTriple (q : Question) : String × String × String :=
  (q.verb.infinitive, q.tense, q.person)

/-! ### Concrete fixtures (used by witnesses and counterexamples) -/

/-- The example verb of the spec: "gehen", strong, difficulty 2, with
präsens/ich = "gehe" and präteritum/ich = "ging". -/
def gehenV : Verb :=
  { id := "v1", infinitive := "gehen", english_translation := "to go", verb_type := "strong",
    stem := "geh",
    conjugations := [("präsens", [("ich", "gehe"), ("du", "gehst")]),
                     ("präteritum", [("ich", "ging")])],
    difficulty_level := 2, created_at := "" }

/-- A loaded catalog holding exactly "gehen". -/
def readyCache : CacheState :=
  { verbsMap := [("gehen", gehenV)], verbsArray := [gehenV], isInitialized := true }

/-- The spec's example configuration: präsens+präteritum × ich over strong
verbs, two questions. -/
def cfg2 : TestConfig :=
  { tenses := ["präsens", "präteritum"], verbTypes := ["strong"], persons := ["ich"],
    questionCount := 2, difficultyLevels := none, specificVerbs := none }

/-- A fixed random stream (always draws index 0). -/
def rand0 : Nat → Nat := fun _ => 0

/-- A deterministic id stream standing in for `uuidv4()`. -/
def uuid0 : Nat → String := fun n => Nat.repr n

/-- `cfg2` with a question count exceeding the two available combinations. -/
def cfg3 : TestConfig := { cfg2 with questionCount := 3 }

/-- A question whose canonical answer is "gehe" under a given id. -/
def qTemplate (qid : String) : Question :=
  { id := qid, verb := gehenV, tense := "präsens", person := "ich", correctAnswer := "gehe",
    userAnswer := none, isCorrect := none, questionText := "" }

/-- A ten-question quiz. -/
def qs10 : List Question :=
  ["1", "2", "3", "4", "5", "6", "7", "8", "9", "10"].map qTemplate

/-- Answers scoring exactly 7 of the 10 questions correct (questions "8"
and "9" are wrong, "10" is unanswered). -/
def ans7 : List (String × String) :=
  [("1", "gehe"), ("2", "gehe"), ("3", "Gehe "), ("4", "gehe"), ("5", "gehe"),
   ("6", "gehe"), ("7", "gehe"), ("8", "geht"), ("9", "")]

/-- A question whose canonical answer normalizes to the single letter "a". -/
def qShort : Question :=
  { id := "q", verb := gehenV, tense := "präsens", person := "ich", correctAnswer := "a",
    userAnswer := none, isCorrect := none, questionText := "" }

/-- Two distinct verb records sharing the infinitive "gehen". -/
def vDup1 : Verb := gehenV

/-- Second record with the same infinitive but different payload. -/
def vDup2 : Verb := { gehenV with id := "v2", english_translation := "to walk" }

/-- An uninitialized cache. -/
def emptyCache : CacheState := { verbsMap := [], verbsArray := [], isInitialized := false }

/-- The cache state `initializeCache` builds from the duplicated list. -/
def dupCache : CacheState :=
  { verbsMap := buildVerbsMap [vDup1, vDup2], verbsArray := [vDup1, vDup2],
    isInitialized := true }

/-- A local attempt record, not yet synced, idempotency key "k1". -/
def r1 : TestResult :=
  { id := "a1", user_id := none, test_date := 100, test_type := "conjugation",
    score := 7, total_questions := 10, percentage := 70, detail := "", duration_seconds := some 42,
    synced := false, synced_at := none, client_generated_id := "k1" }

/-- A one-record local store. -/
def stOne : Store := { results := [r1], lastSync := none }

/-- A remote record sharing the local idempotency key "k1". -/
def srvA : TestResult :=
  { r1 with id := "srvA", test_date := 50, synced := false, client_generated_id := "k1" }

/-- A remote record with the fresh idempotency key "k2". -/
def srvB : TestResult :=
  { r1 with id := "srvB", test_date := 200, synced := false, client_generated_id := "k2" }

/-- A second remote batch repeating key "k2". -/
def srvC : TestResult :=
  { r1 with id := "srvC", test_date := 300, synced := false, client_generated_id := "k2" }

/-- First downloaded batch. -/
def batch1 : List TestResult := [srvA, srvB]

/-- Second downloaded batch. -/
def batch2 : List TestResult := [srvC]

/-! ### General lemmas -/

/-- `jsRound` agrees with Mathlib's `round` on `ℚ`. -/
theorem jsRound_eq_round (q : ℚ) : jsRound q = round q := by
  rw [round_eq]; rfl

/-! ### C10 — scoring an empty question list -/

/-- C10: `scoreQuiz` on an empty question list is total and safe: score 0,
totalQuestions 0, and percentage exactly 0 (the `totalQuestions > 0` guard
short-circuits the division), for every answer map and timing input. -/
theorem scoreQuiz_empty (now : Int) (userAnswers : List (String × String))
    (startTime : Option Int) :
    (scoreQuiz now [] userAnswers startTime).score = 0 ∧
    (scoreQuiz now [] userAnswers startTime).totalQuestions = 0 ∧
    (scoreQuiz now [] userAnswers startTime).percentage = 0 := by
  refine ⟨rfl, rfl, ?_⟩
  show (jsRound ((if (0:Nat) > 0 then ((0 : ℚ) / (0 : ℚ)) * 100 else 0) * 100) : ℚ) / 100 = 0
  norm_num [jsRound, Rat.floor_def']

/-! ### C8 — score bound and percentage formula -/

/-- C8: for every scored quiz with a non-empty question list, the score
never exceeds the question count and the percentage is
`100·score/totalQuestions` rounded (half-up) to two decimal places; in
particular the fixed 7-of-10 quiz `qs10`/`ans7` scores exactly 70. -/
theorem scoreQuiz_bound_and_percentage (now : Int) (questions : List Question)
    (userAnswers : List (String × String)) (startTime : Option Int)
    (h : questions ≠ []) :
    (scoreQuiz now questions userAnswers startTime).score ≤
      (scoreQuiz now questions userAnswers startTime).totalQuestions ∧
    (scoreQuiz now questions userAnswers startTime).percentage =
      (jsRound ((((scoreQuiz now questions userAnswers startTime).score : ℚ) /
          ((scoreQuiz now questions userAnswers startTime).totalQuestions : ℚ) * 100) * 100) : ℚ)
        / 100 ∧
    (scoreQuiz 0 qs10 ans7 none).percentage = 70 := by
  have hpos : 0 < questions.length := List.length_pos.2 h
  refine ⟨List.countP_le_length _, ?_, ?_⟩
  · simp only [scoreQuiz, if_pos hpos]
  · show (jsRound ((if (10:Nat) > 0 then ((7 : ℚ) / (10 : ℚ)) * 100 else 0) * 100) : ℚ) / 100 = 70
    norm_num [jsRound, Rat.floor_def']

/-- C8 witness: the theorem applied to the concrete 7-of-10 quiz. -/
theorem scoreQuiz_bound_and_percentage_witness :
    (scoreQuiz 0 qs10 ans7 none).score ≤ (scoreQuiz 0 qs10 ans7 none).totalQuestions ∧
    (scoreQuiz 0 qs10 ans7 none).percentage =
      (jsRound ((((scoreQuiz 0 qs10 ans7 none).score : ℚ) /
          ((scoreQuiz 0 qs10 ans7 none).totalQuestions : ℚ) * 100) * 100) : ℚ) / 100 ∧
    (scoreQuiz 0 qs10 ans7 none).percentage = 70 :=
  scoreQuiz_bound_and_percentage 0 qs10 ans7 none (by decide)

/-! ### C9 — partial-match predicate -/

/-- C9 counterexample: the source checks only the *user's* normalized length
against 2.  For `qShort` (canonical answer "a", normalized length 1) and
user answer "ab", `isPartiallyCorrect` returns `true`, although the claim
demands `false` whenever the canonical side is shorter than 2. -/
theorem isPartiallyCorrect_short_canonical :
    isPartiallyCorrect qShort "ab" = true ∧
    ¬ 2 ≤ (normalizeAnswer qShort.correctAnswer).data.length := by
  decide

/-- C9 amended: `isPartiallyCorrect` is true iff the *user's* normalized
answer has length ≥ 2 and one normalized form is a prefix of the other (the
canonical answer's length is not checked).  Scoring never consults it:
`scoreQuiz` is defined without reference to `isPartiallyCorrect`. -/
theorem isPartiallyCorrect_iff (question : Question) (userAnswer : String) :
    isPartiallyCorrect question userAnswer = true ↔
      2 ≤ (normalizeAnswer userAnswer).data.length ∧
      ((normalizeAnswer question.correctAnswer).data <+: (normalizeAnswer userAnswer).data ∨
        (normalizeAnswer userAnswer).data <+: (normalizeAnswer question.correctAnswer).data) := by
  by_cases hlt : (normalizeAnswer userAnswer).data.length < 2
  · simp only [isPartiallyCorrect, if_pos hlt, Bool.false_eq_true, false_iff]
    intro hc
    omega
  · simp only [isPartiallyCorrect, if_neg hlt, Bool.or_eq_true,  List.isPrefixOf_iff_prefix]
    constructor
    · intro hc
      exact ⟨by omega, hc⟩
    · intro hc
      exact hc.2

/-! ### C4 — failed upload leaves the ledger untouched -/

/-- C4: when the remote write as a whole fails, `uploadHistory` returns a
failure result carrying the propagated error message, the store (ledger and
last-sync timestamp) is exactly as before, and in particular every attempt
that was unsynced before is still unsynced. -/
theorem uploadHistory_failure (now : String) (st : Store)
    (h : getUnsyncedResults st ≠ []) :
    (uploadHistory now false st).2 = st ∧
    (uploadHistory now false st).1.success = false ∧
    (uploadHistory now false st).1.message = "Failed to upload results to server" ∧
    getUnsyncedResults (uploadHistory now false st).2 = getUnsyncedResults st := by
  have hlen : ¬ (getUnsyncedResults st).length = 0 := by
    simpa [List.length_eq_zero] using h
  refine ⟨?_, ?_, ?_, ?_⟩ <;> simp [uploadHistory, hlen]

/-- C4 witness: the theorem applied to the one-record store whose single
attempt is unsynced. -/
theorem uploadHistory_failure_witness :
    (uploadHistory "t0" false stOne).2 = stOne ∧
    (uploadHistory "t0" false stOne).1.success = false ∧
    (uploadHistory "t0" false stOne).1.message = "Failed to upload results to server" ∧
    getUnsyncedResults (uploadHistory "t0" false stOne).2 = getUnsyncedResults stOne :=
  uploadHistory_failure "t0" stOne (by decide)

/-! ### C6 — duplicate infinitives at catalog load -/

/-- `mapSet` never changes the key list when the key is present, and appends
the key otherwise. -/
theorem mapSet_keys (m : List (String × Verb)) (k : String) (v : Verb) :
    (mapSet m k v).map Prod.fst =
      if m.any (fun p => p.1 == k) then m.map Prod.fst else m.map Prod.fst ++ [k] := by
  unfold mapSet
  split
  · next h =>
    simp only [if_pos h, List.map_map]
    refine List.map_congr_left fun p _ => ?_
    by_cases hp : p.1 == k
    · simp only [Function.comp_apply, if_pos hp]
      exact ((beq_iff_eq).1 hp).symm
    · simp only [Function.comp_apply, if_neg hp]
  · next h => simp [if_neg h]

/-- The fold of `buildVerbsMap` keeps the key list duplicate-free. -/
theorem buildVerbsMap_keys_nodup_aux (verbs : List Verb) :
    ∀ m : List (String × Verb), (m.map Prod.fst).Nodup →
      (((verbs.foldl (fun m verb => mapSet m verb.infinitive verb) m)).map Prod.fst).Nodup := by
  induction verbs with
  | nil => intro m hm; simpa using hm
  | cons v vs ih =>
    intro m hm
    simp only [List.foldl_cons]
    refine ih _ ?_
    rw [mapSet_keys]
    split
    · exact hm
    · next h =>
      have hk : v.infinitive ∉ m.map Prod.fst := by
        intro hmem
        apply h
        obtain ⟨p, hp, hfst⟩ := List.mem_map.1 hmem
        exact List.any_eq_true.2 ⟨p, hp, by simp [hfst]⟩
      refine (List.nodup_append).2 ⟨hm, List.nodup_singleton _, ?_⟩
      intro a ha hb
      simp only [List.mem_singleton] at hb
      exact hk (hb ▸ ha)

/-- C6 counterexample: loading a list in which two distinct verb records
share the infinitive "gehen" succeeds (`Except.ok`, no `ValidationError`
exists anywhere in the source), and the resulting in-memory flat index
retains both records, so its infinitives are *not* pairwise distinct. -/
theorem initializeCache_accepts_duplicates :
    initializeCache [vDup1, vDup2] emptyCache = Except.ok dupCache ∧
    vDup1.infinitive = vDup2.infinitive ∧ vDup1 ≠ vDup2 ∧
    ¬ (dupCache.verbsArray.map Verb.infinitive).Nodup :=
  ⟨rfl, by decide, by decide, by decide⟩

/-- C6 amended: `initializeCache` performs no duplicate-infinitive
validation: any non-empty verb list loads successfully into a cache whose
flat array is the input verbatim (duplicates included); only the lookup
`Map` is duplicate-free by construction (`Map.set` overwrites, so the last
record per infinitive wins). -/
theorem initializeCache_no_dup_check (verbs : List Verb) (st : CacheState)
    (hinit : st.isInitialized = false) (hne : verbs ≠ []) :
    initializeCache verbs st =
      Except.ok { verbsMap := buildVerbsMap verbs, verbsArray := verbs, isInitialized := true } ∧
    ((buildVerbsMap verbs).map Prod.fst).Nodup := by
  have hlen : ¬ verbs.length = 0 := by simpa [List.length_eq_zero] using hne
  refine ⟨by simp [initializeCache, hinit, hlen], ?_⟩
  exact buildVerbsMap_keys_nodup_aux verbs [] (by simp)

/-- C6 witness: the amended theorem applied to the duplicated list over the
uninitialized cache. -/
theorem initializeCache_no_dup_check_witness :
    initializeCache [vDup1, vDup2] emptyCache =
      Except.ok { verbsMap := buildVerbsMap [vDup1, vDup2], verbsArray := [vDup1, vDup2],
                  isInitialized := true } ∧
    ((buildVerbsMap [vDup1, vDup2]).map Prod.fst).Nodup :=
  initializeCache_no_dup_check [vDup1, vDup2] emptyCache (by decide) (by decide)

/-! ### C7 — configuration validation -/

/-- C7: `validateConfiguration` reports `valid = false` whenever the number
of available (verb, tense, person) combinations — candidate verbs defining
every requested tense/person, crossed with the requested tenses and persons
— falls short of `questionCount`, and likewise for an empty tense, verb-type
or person set, a count outside 1–100, or an empty candidate pool.  (The
source compares `availableVerbs.length` to the count, which is an even
stricter check, since every candidate verb contributes
`tenses.length × persons.length ≥ 1` combinations.) -/
theorem validateConfiguration_flags (config : TestConfig) (st : CacheState)
    (h : (candidateVerbs config st).length * config.tenses.length * config.persons.length
          < config.questionCount ∨
        config.tenses = [] ∨ config.verbTypes = [] ∨ config.persons = [] ∨
        config.questionCount < 1 ∨ config.questionCount > 100 ∨
        candidateVerbs config st = []) :
    (validateConfiguration config st).valid = false := by
  have key : (validateConfiguration config st).errors ≠ [] →
      (validateConfiguration config st).valid = false := by
    intro hne
    have : ¬ (validateConfiguration config st).errors.length = 0 := by
      simpa [List.length_eq_zero] using hne
    simp only [validateConfiguration] at this ⊢
    simpa using this
  apply key
  simp only [validateConfiguration, ne_eq, ← List.length_eq_zero]
  simp only [List.length_append]
  rcases h with hcomb | ht | hvt | hp | hlo | hhi | hpool
  · by_cases ht : config.tenses = []
    · simp [ht]
    · by_cases hp : config.persons = []
      · simp [hp]
      · have ht1 : 1 ≤ config.tenses.length := List.length_pos.2 ht
        have hp1 : 1 ≤ config.persons.length := List.length_pos.2 hp
        have hv : (candidateVerbs config st).length < config.questionCount := by
          calc (candidateVerbs config st).length
              ≤ (candidateVerbs config st).length * config.tenses.length := by
                exact Nat.le_mul_of_pos_right _ ht1
            _ ≤ (candidateVerbs config st).length * config.tenses.length
                  * config.persons.length := Nat.le_mul_of_pos_right _ hp1
            _ < config.questionCount := hcomb
        by_cases hz : (candidateVerbs config st).length = 0
        · simp [hz]
        · have hz' : ¬ (candidateVerbs config st).length = 0 := hz
          simp [hz', hv]
  · simp [ht]
  · simp [hvt]
  · simp [hp]
  · simp [hlo]
  · simp [hhi]
  · have hz : (candidateVerbs config st).length = 0 := by simp [hpool]
    simp [hz]

/-- C7 witness: `cfg2` with `questionCount := 3` over the one-verb catalog
has only `1 × 2 × 1 = 2` combinations, and validation indeed fails. -/
theorem validateConfiguration_flags_witness :
    (validateConfiguration cfg3 readyCache).valid = false :=
  validateConfiguration_flags cfg3 readyCache (by decide)

/-! ### Shuffle lemmas (C1, C2) -/

/-- An element sitting at a valid index occurs in the list at least once. -/
theorem one_le_count_of_getElem {α : Type} [DecidableEq α] (l : List α) (i : Nat)
    (hi : i < l.length) (b : α) (hb : (l.get ⟨i, hi⟩ == b) = true) : 1 ≤ List.count b l := by
  refine List.one_le_count_iff.2 ?_
  have : l.get ⟨i, hi⟩ = b := (beq_iff_eq).1 hb
  exact this ▸ List.get_mem l i hi

/-- Swapping two entries of a list is a permutation. -/
theorem swapIdx_perm {α : Type} [DecidableEq α] (l : List α) (i j : Nat) :
    (swapIdx l i j).Perm l := by
  unfold swapIdx
  split
  · next h =>
    obtain ⟨hi, hj⟩ := h
    rw [List.perm_iff_count]
    intro b
    have hj1 : j < (l.set i (l.get ⟨j, hj⟩)).length := by simpa using hj
    rw [List.count_set (l.get ⟨i, hi⟩) b (l.set i (l.get ⟨j, hj⟩)) j hj1]
    rw [List.count_set (l.get ⟨j, hj⟩) b l i hi]
    simp only [List.get_eq_getElem, List.getElem_set]
    have h1 : (l[i] == b) = true → 1 ≤ List.count b l := fun hb =>
      List.one_le_count_iff.2 (((beq_iff_eq).1 hb) ▸ List.getElem_mem hi)
    rcases eq_or_ne i j with rfl | hne
    · by_cases hib : (l[i] == b) = true
      · have hc := h1 hib
        simp [hib]
        omega
      · simp [hib]
    · by_cases hib : (l[i] == b) = true <;> by_cases hjb : (l[j] == b) = true
      · have hc := h1 hib
        simp [hne, hib, hjb]
        omega
      · have hc := h1 hib
        simp [hne, hib, hjb]
        omega
      · simp [hne, hib, hjb]
      · simp [hne, hib, hjb]
  · exact List.Perm.refl l

/-- Every pass of the Fisher–Yates loop permutes the list. -/
theorem fisherYatesAux_perm {α : Type} [DecidableEq α] (rand : Nat → Nat) :
    ∀ (n : Nat) (l : List α), (fisherYatesAux rand n l).Perm l := by
  intro n
  induction n with
  | zero => intro l; exact List.Perm.refl l
  | succ i ih =>
    intro l
    exact (ih _).trans (swapIdx_perm l (i + 1) (rand (i + 1) % (i + 2)))

/-- `fisherYates` permutes its input for every random stream. -/
theorem fisherYates_perm {α : Type} [DecidableEq α] (rand : Nat → Nat) (l : List α) :
    (fisherYates rand l).Perm l :=
  fisherYatesAux_perm rand (l.length - 1) l

/-! ### Candidate pool and combination lemmas (C1, C2) -/

/-- A filter stage never invents verbs. -/
theorem filterStage_sublist {β : Type} (l : List Verb) (crit : Option (List β))
    (accepts : List β → Verb → Bool) : (filterStage l crit accepts).Sublist l := by
  rcases crit with _ | cs
  · exact List.Sublist.refl l
  · simp only [filterStage]
    split
    · exact List.filter_sublist l
    · exact List.Sublist.refl l

/-- `filterVerbs` returns a sublist of the backing array. -/
theorem filterVerbs_sublist (st : CacheState) (criteria : VerbFilters) :
    (filterVerbs st criteria).Sublist st.verbsArray := by
  unfold filterVerbs
  split
  · exact List.nil_sublist _
  · exact ((filterStage_sublist _ _ _).trans (filterStage_sublist _ _ _)).trans
      (filterStage_sublist _ _ _)

/-- The candidate pool is a sublist of the backing array. -/
theorem candidateVerbs_sublist (config : TestConfig) (st : CacheState) :
    (candidateVerbs config st).Sublist st.verbsArray :=
  (List.filter_sublist _).trans (filterVerbs_sublist st (configFilters config))

/-- The person loop of `allCombinations` is a map over the persons whose
conjugation exists. -/
theorem personCombos_eq (verb : Verb) (tense : String) (persons : List String) :
    (persons.filterMap fun person =>
        match getConjugation verb tense person with
        | some _ => some (verb, tense, person)
        | none => none) =
      (persons.filter fun person => (getConjugation verb tense person).isSome).map
        (fun person => (verb, tense, person)) := by
  induction persons with
  | nil => rfl
  | cons p ps ih =>
    simp only [List.filterMap_cons, List.filter_cons]
    rcases hg : getConjugation verb tense p with _ | s
    · simpa [hg] using ih
    · simpa [hg] using ih

/-- Triples arising from one (verb, tense) block carry that verb's
infinitive and that tense. -/
theorem mem_personCombos_triple (verb : Verb) (tense : String) (persons : List String)
    (x : String × String × String)
    (hx : x ∈ ((persons.filterMap fun person =>
        match getConjugation verb tense person with
        | some _ => some (verb, tense, person)
        | none => none).map comboTriple)) :
    x.1 = verb.infinitive ∧ x.2.1 = tense := by
  rw [personCombos_eq, List.map_map] at hx
  obtain ⟨p, _, rfl⟩ := List.mem_map.1 hx
  exact ⟨rfl, rfl⟩

/-- C1 core: over pairwise-distinct infinitives and duplicate-free tense and
person sets, the combination list has pairwise-distinct triples. -/
theorem allCombinations_triples_nodup (tenses persons : List String) (verbs : List Verb)
    (hv : verbs.Pairwise fun a b => a.infinitive ≠ b.infinitive)
    (ht : tenses.Nodup) (hp : persons.Nodup) :
    ((allCombinations tenses persons verbs).map comboTriple).Nodup := by
  unfold allCombinations
  rw [List.map_flatMap, List.nodup_flatMap]
  constructor
  · intro v hvmem
    rw [List.map_flatMap, List.nodup_flatMap]
    constructor
    · intro t htmem
      rw [personCombos_eq, List.map_map]
      refine List.Nodup.map_on ?_ (hp.filter _)
      intro x _ y _ hxy
      simpa [comboTriple] using hxy
    · refine ht.imp ?_
      intro a b hab
      intro x hxa hxb
      have h1 := (mem_personCombos_triple v a persons x hxa).2
      have h2 := (mem_personCombos_triple v b persons x hxb).2
      exact hab (h1 ▸ h2.symm ▸ rfl)
  · refine hv.imp ?_
    intro a b hab
    intro x hxa hxb
    obtain ⟨c, hc, rfl⟩ := List.mem_map.1 hxa
    obtain ⟨d, hd, hcd⟩ := List.mem_map.1 hxb
    obtain ⟨ta, _, hc'⟩ := List.mem_flatMap.1 hc
    obtain ⟨tb, _, hd'⟩ := List.mem_flatMap.1 hd
    rw [personCombos_eq] at hc' hd'
    obtain ⟨pa, _, rfl⟩ := List.mem_map.1 hc'
    obtain ⟨pb, _, rfl⟩ := List.mem_map.1 hd'
    apply hab
    simpa [comboTriple] using (congrArg Prod.fst hcd).symm

/-- The final question-building map preserves the (verb, tense, person)
triples of the selected combinations. -/
theorem buildQuestions_triples (uuid : Nat → String) :
    ∀ (i : Nat) (combos : List (Verb × String × String)),
      (buildQuestions uuid i combos).map questionTriple = combos.map comboTriple := by
  intro i combos
  induction combos generalizing i with
  | nil => rfl
  | cons c cs ih =>
    simp only [buildQuestions, List.map_cons, ih]
    rfl

/-- Membership in the built question list comes from a selected combination. -/
theorem buildQuestions_mem (uuid : Nat → String) :
    ∀ (i : Nat) (combos : List (Verb × String × String)) (q : Question),
      q ∈ buildQuestions uuid i combos →
        ∃ n combo, combo ∈ combos ∧ q = mkQuestion (uuid n) combo := by
  intro i combos
  induction combos generalizing i with
  | nil => intro q hq; simp [buildQuestions] at hq
  | cons c cs ih =>
    intro q hq
    simp only [buildQuestions, List.mem_cons] at hq
    rcases hq with rfl | hq
    · exact ⟨i, c, List.mem_cons_self c cs, rfl⟩
    · obtain ⟨n, combo, hmem, rfl⟩ := ih (i + 1) q hq
      exact ⟨n, combo, List.mem_cons_of_mem c hmem, rfl⟩

/-- Every kept combination has a conjugation. -/
theorem allCombinations_conjugation (tenses persons : List String) (verbs : List Verb)
    (combo : Verb × String × String) (hc : combo ∈ allCombinations tenses persons verbs) :
    (getConjugation combo.1 combo.2.1 combo.2.2).isSome := by
  unfold allCombinations at hc
  obtain ⟨v, _, hc1⟩ := List.mem_flatMap.1 hc
  obtain ⟨t, _, hc2⟩ := List.mem_flatMap.1 hc1
  obtain ⟨p, _, hc3⟩ := List.mem_filterMap.1 hc2
  rcases hg : getConjugation v t p with _ | s
  · rw [hg] at hc3; cases hc3
  · rw [hg] at hc3
    cases hc3
    simp [hg]

/-! ### C1 — no duplicate (verb, tense, person) triples -/

/-- C1: for every configuration whose tense, person and verb-type sets are
non-empty and duplicate-free over a loaded catalog with unique infinitives,
`generateQuestions` never emits two Questions with the same
(verb, tense, person) triple — for every random stream and id stream. -/
theorem generateQuestions_no_duplicate_triples (rand : Nat → Nat) (uuid : Nat → String)
    (config : TestConfig) (st : CacheState)
    (hcat : (st.verbsArray.map Verb.infinitive).Nodup)
    (hinit : st.isInitialized = true)
    (htenses : config.tenses.Nodup) (hpersons : config.persons.Nodup)
    (hT : config.tenses ≠ []) (hP : config.persons ≠ []) (hV : config.verbTypes ≠ []) :
    ((generateQuestions rand uuid config st).map questionTriple).Nodup := by
  by_cases hz : (candidateVerbs config st).length = 0
  · simp [generateQuestions, hz]
  · simp only [generateQuestions, if_neg hz]
    rw [buildQuestions_triples]
    have hv : (candidateVerbs config st).Pairwise fun a b => a.infinitive ≠ b.infinitive := by
      have hpw : st.verbsArray.Pairwise fun a b => a.infinitive ≠ b.infinitive :=
        List.pairwise_map.mp hcat
      exact hpw.sublist (candidateVerbs_sublist config st)
    have hnodup := allCombinations_triples_nodup config.tenses config.persons
      (candidateVerbs config st) hv htenses hpersons
    have hperm := fisherYates_perm rand
      (allCombinations config.tenses config.persons (candidateVerbs config st))
    have hshuffled : ((fisherYates rand
        (allCombinations config.tenses config.persons (candidateVerbs config st))).map
          comboTriple).Nodup :=
      ((hperm.map comboTriple).symm).nodup hnodup
    exact ((List.take_sublist _ _).map comboTriple).nodup hshuffled

/-- C1 witness: the theorem applied to the spec's example configuration over
the one-verb catalog. -/
theorem generateQuestions_no_duplicate_triples_witness :
    ((generateQuestions rand0 uuid0 cfg2 readyCache).map questionTriple).Nodup :=
  generateQuestions_no_duplicate_triples rand0 uuid0 cfg2 readyCache (by decide) (by decide)
    (by decide) (by decide) (by decide) (by decide) (by decide)

/-! ### C2 — canonical answers come from the conjugation table -/

/-- C2: every generated Question's `correctAnswer` is exactly the value of
the source verb's conjugation table at its (tense, person), so a triple
whose conjugation entry is absent can never yield a Question — for every
configuration, catalog, random stream and id stream. -/
theorem generateQuestions_correct_answers (rand : Nat → Nat) (uuid : Nat → String)
    (config : TestConfig) (st : CacheState) (q : Question)
    (hq : q ∈ generateQuestions rand uuid config st) :
    getConjugation q.verb q.tense q.person = some q.correctAnswer := by
  by_cases hz : (candidateVerbs config st).length = 0
  · simp [generateQuestions, hz] at hq
  · simp only [generateQuestions, if_neg hz] at hq
    obtain ⟨n, combo, hmem, rfl⟩ := buildQuestions_mem uuid 0 _ q hq
    have hmem' : combo ∈ allCombinations config.tenses config.persons (candidateVerbs config st) := by
      have h1 := (List.take_sublist _ _).subset hmem
      exact (fisherYates_perm rand _).subset h1
    have hsome := allCombinations_conjugation _ _ _ combo hmem'
    obtain ⟨s, hs⟩ := Option.isSome_iff_exists.1 hsome
    simp [mkQuestion, hs]

/-- C2 witness: the theorem applied to the first question generated for the
example configuration (the "ging" präteritum question under `rand0`). -/
theorem generateQuestions_correct_answers_witness :
    getConjugation (mkQuestion (uuid0 0) (gehenV, "präteritum", "ich")).verb
        (mkQuestion (uuid0 0) (gehenV, "präteritum", "ich")).tense
        (mkQuestion (uuid0 0) (gehenV, "präteritum", "ich")).person =
      some (mkQuestion (uuid0 0) (gehenV, "präteritum", "ich")).correctAnswer :=
  generateQuestions_correct_answers rand0 uuid0 cfg2 readyCache
    (mkQuestion (uuid0 0) (gehenV, "präteritum", "ich")) (by decide)

/-! ### C5 — download merge -/

/-- `getTestResults` only reorders the stored records. -/
theorem getTestResults_perm (st : Store) : (getTestResults st).Perm st.results :=
  List.perm_insertionSort _ _

/-- The merge loop of `downloadHistory`: the final stored records are (up to
the reorderings of `getTestResults`) the old records plus those server
records whose key is outside `K`, each marked synced. -/
theorem downloadFold_perm (K : List String) :
    ∀ (serverResults : List TestResult) (st : Store),
      ((serverResults.foldl
        (fun s serverResult =>
          if K.contains serverResult.client_generated_id then s
          else saveTestResult s (markSyncedFromServer serverResult)) st)).results.Perm
      (st.results ++
        (serverResults.filter
          (fun serverResult => !(K.contains serverResult.client_generated_id))).map
            markSyncedFromServer) := by
  intro serverResults
  induction serverResults with
  | nil => intro st; simp
  | cons sr rest ih =>
    intro st
    rw [List.foldl_cons, List.filter_cons]
    by_cases hk : K.contains sr.client_generated_id = true
    · have hnk : ¬ ((!K.contains sr.client_generated_id) = true) := by
        rw [hk]; decide
      rw [if_pos hk, if_neg hnk]
      exact ih st
    · have hf : K.contains sr.client_generated_id = false := by
        revert hk; cases K.contains sr.client_generated_id <;> simp
      have hnk : (!K.contains sr.client_generated_id) = true := by rw [hf]; rfl
      rw [if_neg hk, if_pos hnk, List.map_cons]
      refine (ih (saveTestResult st (markSyncedFromServer sr))).trans ?_
      have hsave : (saveTestResult st (markSyncedFromServer sr)).results =
          getTestResults st ++ [markSyncedFromServer sr] := rfl
      rw [hsave, List.append_assoc, List.singleton_append]
      exact (getTestResults_perm st).append_right _

/-- Key list of the records appended by a merge step. -/
theorem downloadFold_keys_nodup (K : List String) (serverResults : List TestResult)
    (st : Store)
    (hl : (st.results.map (fun r => r.client_generated_id)).Nodup)
    (hs : (serverResults.map (fun r => r.client_generated_id)).Nodup)
    (hK : ∀ r ∈ st.results, K.contains r.client_generated_id) :
    (((serverResults.foldl
        (fun s serverResult =>
          if K.contains serverResult.client_generated_id then s
          else saveTestResult s (markSyncedFromServer serverResult)) st)).results.map
      (fun r => r.client_generated_id)).Nodup := by
  have hperm := (downloadFold_perm K serverResults st).map (fun r => r.client_generated_id)
  refine hperm.symm.nodup ?_
  rw [List.map_append, List.nodup_append]
  have hmapmap : ((serverResults.filter
      (fun serverResult => !(K.contains serverResult.client_generated_id))).map
        markSyncedFromServer).map (fun r => r.client_generated_id) =
      (serverResults.filter
        (fun serverResult => !(K.contains serverResult.client_generated_id))).map
          (fun r => r.client_generated_id) := by
    rw [List.map_map]
    rfl
  refine ⟨hl, ?_, ?_⟩
  · rw [hmapmap]
    exact ((List.filter_sublist _).map _).nodup hs
  · intro a ha hb
    rw [hmapmap] at hb
    obtain ⟨r, hr, rfl⟩ := List.mem_map.1 ha
    obtain ⟨r', hr', hkey⟩ := List.mem_map.1 hb
    have hout := List.of_mem_filter hr'
    rw [hkey] at hout
    simp only [Bool.not_eq_true'] at hout
    have hin := hK r hr
    rw [hout] at hin
    cases hin

/-- One full `downloadHistory` step keeps local idempotency keys
duplicate-free. -/
theorem downloadHistory_keys_nodup (s : List TestResult) (now : String) (st : Store)
    (hl : (st.results.map (fun r => r.client_generated_id)).Nodup)
    (hs : (s.map (fun r => r.client_generated_id)).Nodup) :
    (((downloadHistory (some s) now st).2).results.map
      (fun r => r.client_generated_id)).Nodup := by
  simp only [downloadHistory]
  refine downloadFold_keys_nodup _ s st hl hs ?_
  intro r hr
  have : r ∈ getTestResults st := (getTestResults_perm st).symm.subset hr
  exact (List.elem_iff).2 (List.mem_map_of_mem _ this)

/-- C5: over a local ledger and remote batches with internally unique
idempotency keys (the remote store enforces the key as a uniqueness
constraint), `downloadHistory` (i) appends, marked synced, exactly those
remote attempts whose key was not already present locally, (ii) keeps every
previously local attempt untouched in the store, and (iii, iv) leaves the
local keys duplicate-free — so a second download can never create two local
attempts sharing an idempotency key. -/
theorem downloadHistory_merge (s1 s2 : List TestResult) (now1 now2 : String) (st : Store)
    (hl : (st.results.map (fun r => r.client_generated_id)).Nodup)
    (hs1 : (s1.map (fun r => r.client_generated_id)).Nodup)
    (hs2 : (s2.map (fun r => r.client_generated_id)).Nodup) :
    ((downloadHistory (some s1) now1 st).2).results.Perm
      (st.results ++
        (s1.filter (fun sr =>
          !(((getTestResults st).map (fun r => r.client_generated_id)).contains
            sr.client_generated_id))).map markSyncedFromServer) ∧
    (∀ r ∈ st.results, r ∈ ((downloadHistory (some s1) now1 st).2).results) ∧
    ((((downloadHistory (some s1) now1 st).2).results.map
      (fun r => r.client_generated_id)).Nodup) ∧
    ((((downloadHistory (some s2) now2 (downloadHistory (some s1) now1 st).2).2).results.map
      (fun r => r.client_generated_id)).Nodup) := by
  have hperm := downloadFold_perm
    ((getTestResults st).map (fun r => r.client_generated_id)) s1 st
  have h1 : ((downloadHistory (some s1) now1 st).2).results.Perm
      (st.results ++
        (s1.filter (fun sr =>
          !(((getTestResults st).map (fun r => r.client_generated_id)).contains
            sr.client_generated_id))).map markSyncedFromServer) := by
    simpa [downloadHistory] using hperm
  have h3 := downloadHistory_keys_nodup s1 now1 st hl hs1
  refine ⟨h1, ?_, h3, ?_⟩
  · intro r hr
    exact h1.symm.subset (List.mem_append_left _ hr)
  · exact downloadHistory_keys_nodup s2 now2 _ h3 hs2

/-- C5 witness: the theorem applied to the one-record store and the two
concrete batches (`batch1` shares key "k1", brings "k2"; `batch2` repeats
"k2"). -/
theorem downloadHistory_merge_witness :
    ((downloadHistory (some batch1) "t1" stOne).2).results.Perm
      (stOne.results ++
        (batch1.filter (fun sr =>
          !(((getTestResults stOne).map (fun r => r.client_generated_id)).contains
            sr.client_generated_id))).map markSyncedFromServer) ∧
    (∀ r ∈ stOne.results, r ∈ ((downloadHistory (some batch1) "t1" stOne).2).results) ∧
    ((((downloadHistory (some batch1) "t1" stOne).2).results.map
      (fun r => r.client_generated_id)).Nodup) ∧
    ((((downloadHistory (some batch2) "t2" (downloadHistory (some batch1) "t1" stOne).2).2).results.map
      (fun r => r.client_generated_id)).Nodup) :=
  downloadHistory_merge batch1 batch2 "t1" "t2" stOne (by decide) (by decide) (by decide)

/-! ### C3 — answer normalization -/

theorem char_shift : ∀ n < 91, 65 ≤ n → (Char.ofNat (n + 32)).toNat = n + 32 := by decide

theorem toLower_cases (c : Char) :
    c.toLower = c ∨ (97 ≤ c.toLower.toNat ∧ c.toLower.toNat ≤ 122) := by
  by_cases h : c.toNat ≥ 65 ∧ c.toNat ≤ 90
  · right
    have hs := char_shift c.toNat (by omega) (by omega)
    simp only [Char.toLower, if_pos h]
    rw [hs]
    omega
  · left
    simp [Char.toLower, h]

theorem toLower_eq_self_of_not_upper (d : Char) (hn : ¬(65 ≤ d.toNat ∧ d.toNat ≤ 90)) :
    d.toLower = d := by
  simp only [Char.toLower]
  exact if_neg fun hcon => hn ⟨hcon.1, hcon.2⟩

theorem toLower_idem (c : Char) : c.toLower.toLower = c.toLower := by
  rcases toLower_cases c with h | h
  · rw [h]
    exact h
  · exact toLower_eq_self_of_not_upper _ (by omega)

theorem punct_codes (c : Char) (h : isStrippedPunct c = true) : c.toNat < 64 := by
  simp only [isStrippedPunct, Bool.or_eq_true, beq_iff_eq] at h
  rcases h with ((((h | h) | h) | h) | h) | h <;> subst h <;> decide

theorem toLower_not_punct (c : Char) (h : isStrippedPunct c = false) :
    isStrippedPunct c.toLower = false := by
  rcases toLower_cases c with hc | hc
  · rwa [hc]
  · by_contra hp
    have hp' : isStrippedPunct c.toLower = true := by
      revert hp; cases isStrippedPunct c.toLower <;> simp
    have := punct_codes _ hp'
    omega

theorem mem_collapseWsAux {c : Char} :
    ∀ (b : Bool) (l : List Char), c ∈ collapseWsAux b l → c = ' ' ∨ c ∈ l := by
  intro b l
  induction l generalizing b with
  | nil => intro h; simp [collapseWsAux] at h
  | cons d ds ih =>
    intro h
    by_cases hd : isJsSpace d = true
    · cases b
      · have he : collapseWsAux false (d :: ds) = ' ' :: collapseWsAux true ds := by
          simp [collapseWsAux, hd]
        rw [he] at h
        rcases List.mem_cons.1 h with rfl | h
        · exact Or.inl rfl
        · rcases ih true h with h' | h'
          · exact Or.inl h'
          · exact Or.inr (List.mem_cons_of_mem d h')
      · have he : collapseWsAux true (d :: ds) = collapseWsAux true ds := by
          simp [collapseWsAux, hd]
        rw [he] at h
        rcases ih true h with h' | h'
        · exact Or.inl h'
        · exact Or.inr (List.mem_cons_of_mem d h')
    · have he : collapseWsAux b (d :: ds) = d :: collapseWsAux false ds := by
        simp [collapseWsAux, hd]
      rw [he] at h
      rcases List.mem_cons.1 h with rfl | h
      · exact Or.inr (List.mem_cons_self c ds)
      · rcases ih false h with h' | h'
        · exact Or.inl h'
        · exact Or.inr (List.mem_cons_of_mem d h')

theorem mem_jsTrim {c : Char} (l : List Char) (h : c ∈ jsTrim l) : c ∈ l := by
  unfold jsTrim at h
  rw [List.mem_reverse] at h
  have h2 := (List.dropWhile_sublist _).subset h
  rw [List.mem_reverse] at h2
  exact (List.dropWhile_sublist _).subset h2

theorem stripPunct_eq_self (l : List Char) (h : ∀ c ∈ l, isStrippedPunct c = false) :
    stripPunct l = l := by
  refine List.filter_eq_self.mpr fun a ha => ?_
  rw [h a ha]
  rfl

theorem collapseWsAux_idem :
    ∀ (l : List Char) (b : Bool), collapseWsAux b (collapseWsAux b l) = collapseWsAux b l := by
  intro l
  induction l with
  | nil => intro b; rfl
  | cons d ds ih =>
    intro b
    by_cases hd : isJsSpace d = true
    · cases b
      · have h1 : collapseWsAux false (d :: ds) = ' ' :: collapseWsAux true ds := by
          simp [collapseWsAux, hd]
        rw [h1]
        have hsp : isJsSpace ' ' = true := by decide
        have h2 : collapseWsAux false (' ' :: collapseWsAux true ds) =
            ' ' :: collapseWsAux true (collapseWsAux true ds) := by
          simp [collapseWsAux, hsp]
        rw [h2, ih true]
      · have h1 : collapseWsAux true (d :: ds) = collapseWsAux true ds := by
          simp [collapseWsAux, hd]
        rw [h1, ih true]
    · have h1 : collapseWsAux b (d :: ds) = d :: collapseWsAux false ds := by
        simp [collapseWsAux, hd]
      rw [h1]
      have h2 : collapseWsAux b (d :: collapseWsAux false ds) =
          d :: collapseWsAux false (collapseWsAux false ds) := by
        simp [collapseWsAux, hd]
      rw [h2, ih false]

theorem dropWhile_head_false (p : Char → Bool) (l : List Char) (c : Char)
    (h : (l.dropWhile p).head? = some c) : p c = false := by
  induction l with
  | nil => simp at h
  | cons d ds ih =>
    by_cases hp : p d = true
    · rw [List.dropWhile_cons, if_pos hp] at h
      exact ih h
    · rw [List.dropWhile_cons, if_neg hp] at h
      simp only [List.head?_cons, Option.some.injEq] at h
      subst h
      revert hp; cases p d <;> simp

theorem dropWhile_eq_self_of_head (p : Char → Bool) (l : List Char)
    (h : ∀ c, l.head? = some c → p c = false) : l.dropWhile p = l := by
  cases l with
  | nil => rfl
  | cons d ds =>
    have hd := h d rfl
    rw [List.dropWhile_cons, if_neg (by rw [hd]; decide)]

theorem jsTrim_eq_self (l : List Char)
    (h1 : ∀ c, l.head? = some c → isJsSpace c = false)
    (h2 : ∀ c, l.getLast? = some c → isJsSpace c = false) : jsTrim l = l := by
  unfold jsTrim
  rw [dropWhile_eq_self_of_head _ l h1]
  rw [dropWhile_eq_self_of_head _ l.reverse
    (fun c hc => h2 c (by rwa [List.head?_reverse] at hc))]
  exact List.reverse_reverse l

theorem dropWhile_getLast? (p : Char → Bool) :
    ∀ (l : List Char) (c : Char), l.getLast? = some c → p c = false →
      (l.dropWhile p).getLast? = some c := by
  intro l
  induction l with
  | nil => intro c h; simp at h
  | cons d ds ih =>
    intro c hl hc
    cases ds with
    | nil =>
      simp only [List.getLast?_singleton, Option.some.injEq] at hl
      subst hl
      rw [List.dropWhile_cons, if_neg (by rw [hc]; decide)]
      rfl
    | cons e es =>
      have hl' : (e :: es).getLast? = some c := by
        rwa [List.getLast?_cons_cons] at hl
      by_cases hp : p d = true
      · rw [List.dropWhile_cons, if_pos hp]
        exact ih c hl' hc
      · rw [List.dropWhile_cons, if_neg hp, List.getLast?_cons_cons]
        exact hl'

theorem collapseWsAux_getLast? :
    ∀ (l : List Char) (c : Char) (b : Bool), l.getLast? = some c → isJsSpace c = false →
      (collapseWsAux b l).getLast? = some c := by
  intro l
  induction l with
  | nil => intro c b h; simp at h
  | cons d ds ih =>
    intro c b hl hc
    cases ds with
    | nil =>
      simp only [List.getLast?_singleton, Option.some.injEq] at hl
      subst hl
      simp [collapseWsAux, hc]
    | cons e es =>
      have hl' : (e :: es).getLast? = some c := by
        rwa [List.getLast?_cons_cons] at hl
      by_cases hd : isJsSpace d = true
      · cases b
        · have he : collapseWsAux false (d :: e :: es) = ' ' :: collapseWsAux true (e :: es) := by
            simp [collapseWsAux, hd]
          rw [he]
          have htail := ih c true hl' hc
          have hne : collapseWsAux true (e :: es) ≠ [] := by
            intro hX; rw [hX] at htail; simp at htail
          obtain ⟨y, ys, hys⟩ := List.exists_cons_of_ne_nil hne
          rw [hys, List.getLast?_cons_cons]
          rw [hys] at htail
          exact htail
        · have he : collapseWsAux true (d :: e :: es) = collapseWsAux true (e :: es) := by
            simp [collapseWsAux, hd]
          rw [he]
          exact ih c true hl' hc
      · have he : collapseWsAux b (d :: e :: es) = d :: collapseWsAux false (e :: es) := by
          simp [collapseWsAux, hd]
        rw [he]
        have htail := ih c false hl' hc
        have hne : collapseWsAux false (e :: es) ≠ [] := by
          intro hX; rw [hX] at htail; simp at htail
        obtain ⟨y, ys, hys⟩ := List.exists_cons_of_ne_nil hne
        rw [hys, List.getLast?_cons_cons]
        rw [hys] at htail
        exact htail

theorem collapseWs_head?_eq (l : List Char)
    (hl : ∀ c, l.head? = some c → isJsSpace c = false) :
    (collapseWs l).head? = l.head? := by
  cases l with
  | nil => rfl
  | cons d ds =>
    have hd := hl d rfl
    unfold collapseWs
    simp [collapseWsAux, hd]

theorem jsTrim_head (u : List Char) :
    ∀ c, (jsTrim u).head? = some c → isJsSpace c = false := by
  intro c hc
  unfold jsTrim at hc
  rw [List.head?_reverse] at hc
  rcases hA : (u.dropWhile isJsSpace) with _ | ⟨a, as⟩
  · rw [hA] at hc; simp at hc
  · have ha : isJsSpace a = false := by
      apply dropWhile_head_false isJsSpace u
      rw [hA]; rfl
    have hlast : (a :: as).reverse.getLast? = some a := by
      rw [List.getLast?_reverse]; rfl
    have := dropWhile_getLast? isJsSpace (a :: as).reverse a hlast ha
    rw [hA] at hc
    rw [this] at hc
    cases hc
    exact ha

theorem jsTrim_getLast (u : List Char) :
    ∀ c, (jsTrim u).getLast? = some c → isJsSpace c = false := by
  intro c hc
  unfold jsTrim at hc
  rw [List.getLast?_reverse] at hc
  exact dropWhile_head_false isJsSpace _ c hc

theorem collapse_trim_trimmed (u : List Char) :
    jsTrim (collapseWs (jsTrim u)) = collapseWs (jsTrim u) := by
  refine jsTrim_eq_self _ ?_ ?_
  · intro c hc
    rw [collapseWs_head?_eq _ (jsTrim_head u)] at hc
    exact jsTrim_head u c hc
  · intro c hc
    rcases hw : (jsTrim u).getLast? with _ | cw
    · -- jsTrim u = [], so the collapse is [] and there is no last element
      have : jsTrim u = [] := by
        cases hJ : jsTrim u
        · rfl
        · rw [hJ] at hw; simp [List.getLast?_cons] at hw
      rw [this] at hc
      simp [collapseWs, collapseWsAux] at hc
    · have hcw : isJsSpace cw = false := jsTrim_getLast u cw hw
      have hlast : (collapseWs (jsTrim u)).getLast? = some cw :=
        collapseWsAux_getLast? (jsTrim u) cw false hw hcw
      rw [hlast] at hc
      cases hc
      exact hcw

theorem normalizeChars_idem_of_no_punct (l : List Char)
    (h : ∀ c ∈ l, isStrippedPunct c = false) :
    normalizeChars (normalizeChars l) = normalizeChars l := by
  have hu : ∀ c ∈ l.map Char.toLower, isStrippedPunct c = false := by
    intro c hc
    obtain ⟨d, hd, rfl⟩ := List.mem_map.1 hc
    exact toLower_not_punct d (h d hd)
  have ht_punct : ∀ c ∈ collapseWs (jsTrim (l.map Char.toLower)), isStrippedPunct c = false := by
    intro c hc
    rcases mem_collapseWsAux false _ hc with rfl | hc'
    · decide
    · exact hu c (mem_jsTrim _ hc')
  have hts : stripPunct (collapseWs (jsTrim (l.map Char.toLower))) =
      collapseWs (jsTrim (l.map Char.toLower)) := stripPunct_eq_self _ ht_punct
  have h1 : normalizeChars l = collapseWs (jsTrim (l.map Char.toLower)) := by
    unfold normalizeChars
    exact hts
  rw [h1]
  have hlow : (collapseWs (jsTrim (l.map Char.toLower))).map Char.toLower =
      collapseWs (jsTrim (l.map Char.toLower)) := by
    refine (List.map_congr_left fun c hc => ?_).trans (List.map_id _)
    rcases mem_collapseWsAux false _ hc with rfl | hc'
    · decide
    · obtain ⟨d, _, rfl⟩ := List.mem_map.1 (mem_jsTrim _ hc')
      exact toLower_idem d
  unfold normalizeChars
  rw [hlow, collapse_trim_trimmed]
  have hcol : collapseWs (collapseWs (jsTrim (l.map Char.toLower))) =
      collapseWs (jsTrim (l.map Char.toLower)) := collapseWsAux_idem _ false
  rw [hcol]
  exact stripPunct_eq_self _ ht_punct

/-- C3 counterexample: stripping punctuation happens *after* trimming and
collapsing whitespace, so it can expose fresh boundary whitespace: the
input "a ." normalizes to "a " (trailing space), which a second
normalization shortens to "a".  `normalizeAnswer` is therefore not
idempotent as claimed. -/
theorem normalizeAnswer_not_idempotent :
    normalizeAnswer (normalizeAnswer "a .") ≠ normalizeAnswer "a ." := by
  decide

/-- C3 amended: `normalizeAnswer` is idempotent on every string containing
none of the stripped punctuation characters `.,!?;:` — the only
non-idempotence comes from punctuation removal exposing whitespace that an
earlier pipeline stage would have trimmed or collapsed. -/
theorem normalizeAnswer_idem_of_no_punct (s : String)
    (h : ∀ c ∈ s.data, isStrippedPunct c = false) :
    normalizeAnswer (normalizeAnswer s) = normalizeAnswer s := by
  show String.mk (normalizeChars (String.mk (normalizeChars s.data)).data) =
    String.mk (normalizeChars s.data)
  exact congrArg String.mk (normalizeChars_idem_of_no_punct s.data h)

/-- C3 witness: the amended theorem applied to a punctuation-free string
with mixed case and stray whitespace. -/
theorem normalizeAnswer_idem_of_no_punct_witness :
    normalizeAnswer (normalizeAnswer " Ha  LLo ") = normalizeAnswer " Ha  LLo " :=
  normalizeAnswer_idem_of_no_punct " Ha  LLo " (by decide)

end GVT
